import Mathlib

/-!
Shallow embedding of `src/tgcf/live.py` (live forwarder with album support).

Messages, media groups and delivery are modelled as pure data; every outbound
transport call (`client.send_message`, `client.forward_messages`,
`client.send_file`, `event.forward_to`) is recorded as a `SendOp` value, so a
handler is a function from its inputs to the list of operations it attempts.
Failures of transport calls are injected through boolean oracles, and the
`try/except` structure of the handlers is mirrored by `Except` results.
-/

/-- Claim scaffolding: a Telethon `Message` as probed by live.py.  `text` is
`msg.message` (empty string when absent), `media` is `msg.media` as an opaque
payload reference, `photo` records whether a photo attachment is present,
`docMime` is `msg.document.mime_type` when a document is attached, and
`groupedId` is `msg.grouped_id`. -/
structure Message where
  id : Nat
  chatId : Int
  text : String
  media : Option Nat
  photo : Bool
  docMime : Option String
  groupedId : Option Int
deriving DecidableEq, Repr

/-- Media class used to bucket album items, from `_bucket_kind` (live.py:137). -/
inductive BucketKind where
  | photo
  | video
  | doc
deriving DecidableEq, Repr

/-- Python `s.startswith(p)`: `p` is a character-wise front of `s`. -/
def pyStartsWith (s p : String) : Bool :=
  p.data.isPrefixOf s.data

/-- `_bucket_kind` (live.py:137-142): photo if a photo attachment is present,
else video if the document mime type starts with "video/", else doc. -/
def bucket_kind (m : Message) : BucketKind :=
  if m.photo then BucketKind.photo
  else if pyStartsWith (m.docMime.getD "") "video/" then BucketKind.video
  else BucketKind.doc

/-- One attempted outbound transport call. -/
inductive SendOp where
  | sendMessage (dest : Int) (text : String) (file : Option Nat) (linkPreview : Bool)
  | forwardMessages (dest : Int) (msgId : Nat) (chatId : Int)
  | sendFile (dest : Int) (files : List Nat) (caption : Option String)
  | sendFileSingle (dest : Int) (file : Option Nat) (caption : Option String)
  | forwardAlbum (dest : Int)
deriving DecidableEq, Repr

/-- `_send_single` (live.py:144-156): copy re-uploads via `send_message` with
link preview exactly when there is no media; otherwise a native forward. -/
def send_single (dest : Int) (msg : Message) (copy : Bool) : SendOp :=
  if copy then
    SendOp.sendMessage dest msg.text msg.media (msg.media == none)
  else
    SendOp.forwardMessages dest msg.id msg.chatId

/-- Python dict `setdefault(kind, []).append(m)`: append `m` to the bucket of
`k`, creating the bucket at the end (insertion order) when absent. -/
def addToBucket (bs : List (BucketKind × List Message)) (k : BucketKind)
    (m : Message) : List (BucketKind × List Message) :=
  match bs with
  | [] => [(k, [m])]
  | (k', ms) :: rest =>

      if k' = k then (k', ms ++ [m]) :: rest
      else (k', ms) :: addToBucket rest k m

/-- One iteration of the bucketing loop of `_send_album_copy` (live.py:164-166):
items without a media payload are skipped. -/
def bstep (bs : List (BucketKind × List Message)) (m : Message) :
    List (BucketKind × List Message) :=
  if m.media.isSome then addToBucket bs (bucket_kind m) m else bs

/-- The bucket dict built by `_send_album_copy` (live.py:162-166): items with a
media payload, grouped by `_bucket_kind` in first-seen order. -/
def bucketsOf (items : List Message) : List (BucketKind × List Message) :=
  items.foldl bstep []

/-- Spec-side lookup into a bucket list: the item list stored under kind `k`
(empty when absent).  Matches Python dict access for association lists with
distinct keys. -/
def bucketGet (bs : List (BucketKind × List Message)) (k : BucketKind) :
    List Message :=
  match bs.find? (fun p => p.1 == k) with
  | some p => p.2
  | none => []

/-- Spec-side definition: the media classes of the group in first-seen order,
as described by the specification of the MediaBatcher. -/
def firstSeenKinds (items : List Message) : List BucketKind :=
  items.foldl
    (fun ks m =>
      if m.media.isSome then
        if ks.contains (bucket_kind m) then ks else ks ++ [bucket_kind m]
      else ks)
    []

/-- The `files[i : i + 10]` slicing loop of `_send_album_copy` (live.py:173-178):
consecutive chunks of at most 10. -/
def chunk10 {α : Type} : List α → List (List α)
  | [] => []
  | x :: xs => (x :: xs).take 10 :: chunk10 (xs.drop 9)
termination_by l => l.length
decreasing_by
  simp [List.length_drop]
  omega

/-- The send calls issued for one bucket by `_send_album_copy`: the first chunk
carries `caption` (`cap = caption` is reset per bucket), later chunks carry
none (`cap = None` after the first send). -/
def chunk_ops (dest : Int) (caption : Option String) (files : List Nat) :
    List SendOp :=
  match chunk10 files with
  | [] => []
  | c :: cs =>
      SendOp.sendFile dest c caption :: cs.map (fun c2 => SendOp.sendFile dest c2 none)

/-- `_send_album_copy` (live.py:158-178): bucket items by media class, keep the
media payloads, slice into chunks of 10 and send each chunk. -/
def send_album_copy (dest : Int) (items : List Message)
    (caption : Option String) : List SendOp :=
  (bucketsOf items).flatMap (fun kb => chunk_ops dest caption (kb.2.filterMap (fun m => m.media)))

/-- `caption = next((m.message for m in items if m.message), None)`
(live.py:216): first non-empty text among the album items. -/
def album_caption (items : List Message) : Option String :=
  (items.find? (fun m => m.text != "")).map (fun m => m.text)

/-- Python truthiness of `msg.grouped_id` (live.py:196): present and non-zero. -/
def truthyGroupId : Option Int → Bool
  | none => false
  | some g => g != 0

/-- `from_to_ids.get(chat, [])`: destinations for a source chat. -/
def lookupDests (from_to : List (Int × List Int)) (chat : Int) : List Int :=
  match from_to.find? (fun p => p.1 == chat) with
  | some p => p.2
  | none => []

/-- `on_new_message` (live.py:191-209) as the list of attempted sends: grouped
messages are skipped, otherwise one `_send_single` per destination with
`copy = copy_mode and not forward_mode`; each send is wrapped in try/except so
every destination is attempted. -/
def on_new_message (from_to : List (Int × List Int))
    (copy_mode forward_mode : Bool) (msg : Message) : List SendOp :=
  if truthyGroupId msg.groupedId then []
  else
    (lookupDests from_to msg.chatId).map
      (fun d => send_single d msg (copy_mode && !forward_mode))

/-- The per-item fallback loop of `on_album` (live.py:238-243): every item is
attempted via `send_file(d, m.media, caption = cap if idx == 0 else None)`;
the inner try/except swallows each item failure, so the loop continues
regardless of the outcome oracle `itemOk`. -/
def album_fallback_run (dest : Int) (caption : Option String)
    (itemOk : Nat → Bool) : List Message → Nat → List (SendOp × Bool)
  | [], _ => []
  | m :: rest, idx =>
      (SendOp.sendFileSingle dest m.media (if idx == 0 then caption else none),
        itemOk idx) :: album_fallback_run dest caption itemOk rest (idx + 1)

/-- Outcome of handling one album for one destination: the primary attempt
(forward or batched copy), whether it succeeded, and the fallback attempts
(empty when the primary succeeded). -/
structure DestOutcome where
  primary : List SendOp
  primaryOk : Bool
  fallback : List (SendOp × Bool)
deriving DecidableEq, Repr

/-- One iteration of the destination loop of `on_album` (live.py:224-243):
forward the album only when `forward_mode and not copy_mode`, else copy; on
failure (oracle `batchOk = false`) run the per-item fallback.  The outer
try/except catches the primary failure and the fallback catches its own item
failures, so the handler itself never raises: the result is always `ok`. -/
def handle_album_dest (dest : Int) (items : List Message)
    (caption : Option String) (copy_mode forward_mode : Bool)
    (batchOk : Bool) (itemOk : Nat → Bool) : Except String DestOutcome :=
  let primary :=
    if forward_mode && !copy_mode then [SendOp.forwardAlbum dest]
    else send_album_copy dest items caption
  if batchOk then Except.ok ⟨primary, true, []⟩
  else Except.ok ⟨primary, false, album_fallback_run dest caption itemOk items 0⟩

/-- `on_album` (live.py:211-243) over all destinations of a source. -/
def on_album (from_to : List (Int × List Int)) (copy_mode forward_mode : Bool)
    (src : Int) (items : List Message) (batchOk : Int → Bool)
    (itemOk : Int → Nat → Bool) : List (Int × Except String DestOutcome) :=
  (lookupDests from_to src).map
    (fun d =>
      (d, handle_album_dest d items (album_caption items) copy_mode forward_mode
        (batchOk d) (itemOk d)))

/-- Configuration JSON as read by `_load_config`: `none` fields are absent (or
null) keys. -/
structure ConfigData where
  copy : Option Bool
  forward : Option Bool
  from_to : Option (List (String × List String))
deriving DecidableEq, Repr

/-- `LiveConfig` (live.py:58-62). -/
structure LiveConfig where
  copy : Bool
  forward : Bool
  from_to : List (String × List String)
deriving DecidableEq, Repr

/-- The only error `_load_config` can raise. -/
inductive ConfigError where
  | fileNotFound
deriving DecidableEq, Repr

/-- `_load_config` (live.py:64-74): missing file raises; otherwise
`copy = bool(data.get("copy", True))`, `forward = bool(data.get("forward", False))`,
`from_to = data.get("from_to", {}) or {}` — a missing mapping silently
defaults to empty. -/
def load_config (fileExists : Bool) (data : ConfigData) :
    Except ConfigError LiveConfig :=
  if !fileExists then Except.error ConfigError.fileNotFound
  else Except.ok ⟨data.copy.getD true, data.forward.getD false, data.from_to.getD []⟩

/-- Python whitespace characters stripped by `str.strip()`. -/
def isPyWS (c : Char) : Bool :=
  c == ' ' || c == '\t' || c == '\n' || c == '\r' || c == Char.ofNat 11 || c == Char.ofNat 12

/-- `identifier.strip()` on the character list. -/
def trimList (l : List Char) : List Char :=
  ((l.dropWhile isPyWS).reverse.dropWhile isPyWS).reverse

/-- `identifier.strip()` (live.py:111). -/
def pyStrip (s : String) : String :=
  ⟨trimList s.data⟩

/-- Decimal value of a digit list. -/
def digitsVal (ds : List Char) : Nat :=
  ds.foldl (fun acc c => acc * 10 + (c.toNat - 48)) 0

/-- Python `int(s)` on an already-stripped string: optional sign followed by
at least one digit, else a `ValueError` (`none`). -/
def pyInt? (s : String) : Option Int :=
  match s.data with
  | [] => none
  | '-' :: ds =>
      if !ds.isEmpty && ds.all Char.isDigit then some (-(digitsVal ds : Int)) else none
  | '+' :: ds =>
      if !ds.isEmpty && ds.all Char.isDigit then some (digitsVal ds : Int) else none
  | ds =>
      if ds.all Char.isDigit then some (digitsVal ds : Int) else none

/-- `identifier.lstrip("-").isdigit()` (live.py:116): drop every leading dash,
then non-empty and all digits. -/
def lstripDashIsdigit (s : String) : Bool :=
  let core := s.data.dropWhile (fun c => c == '-')
  !core.isEmpty && core.all Char.isDigit

/-- Result of chat resolution: a direct numeric parse, an external
`get_entity` lookup, or a `ValueError` from `int()`. -/
inductive Resolved where
  | direct (id : Int)
  | lookup (identifier : String)
  | parseError
deriving DecidableEq, Repr

/-- The branch chain of `_resolve_chat_id` (live.py:112-123) applied to the
already-stripped identifier. -/
def resolveCore (s : String) : Resolved :=
  if pyStartsWith s "t.me/" || pyStartsWith s "https://t.me/" then Resolved.lookup s
  else if pyStartsWith s "-100" || lstripDashIsdigit s then
    match pyInt? s with
    | some n => Resolved.direct n
    | none => Resolved.parseError
  else if pyStartsWith s "@" then Resolved.lookup s
  else Resolved.lookup s

/-- `_resolve_chat_id` (live.py:107-123): strip, then resolve. -/
def resolve_chat_id (identifier : String) : Resolved :=
  resolveCore (pyStrip identifier)

/-- Whether an operation is a batch send carrying a caption. -/
def isCaptioned : SendOp → Bool
  | SendOp.sendFile _ _ (some _) => true
  | _ => false

/-! ## Helper lemmas -/

theorem length_dropWhile_le' {α : Type} (p : α → Bool) (l : List α) :
    (l.dropWhile p).length ≤ l.length := by
  induction l with
  | nil => simp
  | cons a l ih =>
    simp only [List.dropWhile]
    split
    · exact Nat.le_succ_of_le ih
    · simp

theorem dropWhile_dropWhile {α : Type} (p : α → Bool) (l : List α) :
    (l.dropWhile p).dropWhile p = l.dropWhile p := by
  induction l with
  | nil => rfl
  | cons a l ih =>
    simp only [List.dropWhile]
    split
    · exact ih
    · simp only [List.dropWhile]
      split
      · simp_all
      · rfl

theorem dropWhile_front_fixed {α : Type} (p : α → Bool) (x y : List α)
    (h : (x ++ y).dropWhile p = x ++ y) : x.dropWhile p = x := by
  cases x with
  | nil => rfl
  | cons a t =>
    have hpa : p a = false := by
      by_contra hc
      have hpa' : p a = true := by
        cases hv : p a
        · exact absurd hv hc
        · rfl
      rw [List.cons_append, List.dropWhile_cons_of_pos hpa'] at h
      have hlen := length_dropWhile_le' p (t ++ y)
      rw [h] at hlen
      simp at hlen
    simp [List.dropWhile_cons_of_neg, hpa]

theorem trimList_idem (l : List Char) : trimList (trimList l) = trimList l := by
  unfold trimList
  set a := l.dropWhile isPyWS with ha
  have hafix : a.dropWhile isPyWS = a := dropWhile_dropWhile isPyWS l
  set b := a.reverse.dropWhile isPyWS with hb
  have hbfix : b.dropWhile isPyWS = b := dropWhile_dropWhile isPyWS a.reverse
  have hsplit : a.reverse.takeWhile isPyWS ++ b = a.reverse :=
    List.takeWhile_append_dropWhile isPyWS a.reverse
  have hadecomp : a = b.reverse ++ (a.reverse.takeWhile isPyWS).reverse := by
    have := congrArg List.reverse hsplit
    simpa using this.symm
  have hbrevfix : b.reverse.dropWhile isPyWS = b.reverse := by
    apply dropWhile_front_fixed isPyWS b.reverse ((a.reverse.takeWhile isPyWS).reverse)
    rw [← hadecomp]
    exact hafix
  rw [hbrevfix]
  simp [hbfix]

theorem pyStrip_idem (s : String) : pyStrip (pyStrip s) = pyStrip s := by
  unfold pyStrip
  exact congrArg String.mk (trimList_idem s.data)

theorem addToBucket_get_same (bs : List (BucketKind × List Message))
    (k : BucketKind) (m : Message) :
    bucketGet (addToBucket bs k m) k = bucketGet bs k ++ [m] := by
  induction bs with
  | nil => simp [addToBucket, bucketGet, List.find?]
  | cons hd rest ih =>
    obtain ⟨k', ms⟩ := hd
    by_cases hk : k' = k
    · subst hk
      simp [addToBucket, bucketGet, List.find?]
    · have hbeq : (k' == k) = false := by
        simp [hk]
      simp only [addToBucket, if_neg hk]
      simp only [bucketGet, List.find?, hbeq]
      exact ih

theorem addToBucket_get_other (bs : List (BucketKind × List Message))
    (k k' : BucketKind) (m : Message) (hne : k' ≠ k) :
    bucketGet (addToBucket bs k m) k' = bucketGet bs k' := by
  induction bs with
  | nil =>
    have hbeq : (k == k') = false := by
      simp
      exact fun h => hne h.symm
    simp [addToBucket, bucketGet, List.find?, hbeq]
  | cons hd rest ih =>
    obtain ⟨k0, ms⟩ := hd
    by_cases hk : k0 = k
    · subst hk
      have hbeq : (k0 == k') = false := by
        simp
        exact fun h => hne h.symm
      simp [addToBucket, bucketGet, List.find?, hbeq]
    · simp only [addToBucket, if_neg hk]
      by_cases hk' : k0 = k'
      · subst hk'
        simp [bucketGet, List.find?]
      · have hbeq : (k0 == k') = false := by
          simp [hk']
        simp only [bucketGet, List.find?, hbeq]
        exact ih

theorem addToBucket_fst (bs : List (BucketKind × List Message))
    (k : BucketKind) (m : Message) :
    (addToBucket bs k m).map Prod.fst =
      (if (bs.map Prod.fst).contains k then bs.map Prod.fst
        else bs.map Prod.fst ++ [k]) := by
  induction bs with
  | nil => simp [addToBucket]
  | cons hd rest ih =>
    obtain ⟨k0, ms⟩ := hd
    by_cases hk : k0 = k
    · subst hk
      simp [addToBucket, List.contains_cons]
    · have hbeq : (k == k0) = false := by
        simp
        exact fun h => hk h.symm
      simp only [addToBucket, if_neg hk, List.map_cons, List.contains_cons, hbeq,
        Bool.false_or]
      rw [ih]
      by_cases hc : (rest.map Prod.fst).contains k = true
      · rw [if_pos hc, if_pos hc]
      · rw [if_neg hc, if_neg hc]
        simp

theorem foldl_bstep_get (items : List Message)
    (bs : List (BucketKind × List Message)) (k : BucketKind) :
    bucketGet (items.foldl bstep bs) k
      = bucketGet bs k
        ++ items.filter (fun m => m.media.isSome && (bucket_kind m == k)) := by
  induction items generalizing bs with
  | nil => simp
  | cons m rest ih =>
    rw [List.foldl_cons, ih]
    unfold bstep
    by_cases hm : m.media.isSome = true
    · rw [if_pos hm]
      by_cases hk : bucket_kind m = k
      · subst hk
        rw [addToBucket_get_same]
        simp [List.filter_cons, hm]
      · have hbeq : (bucket_kind m == k) = false := by
          simp [hk]
        rw [addToBucket_get_other bs (bucket_kind m) k m (Ne.symm hk)]
        simp [List.filter_cons, hbeq]
    · have hm' : m.media.isSome = false := by
        cases hv : m.media.isSome
        · rfl
        · exact absurd hv hm
      rw [if_neg hm]
      simp [List.filter_cons, hm']

theorem bucketsOf_get (items : List Message) (k : BucketKind) :
    bucketGet (bucketsOf items) k
      = items.filter (fun m => m.media.isSome && (bucket_kind m == k)) := by
  have h := foldl_bstep_get items [] k
  unfold bucketsOf
  rw [h]
  simp [bucketGet, List.find?]

theorem addToBucket_keys_nodup (bs : List (BucketKind × List Message))
    (k : BucketKind) (m : Message) (h : (bs.map Prod.fst).Nodup) :
    ((addToBucket bs k m).map Prod.fst).Nodup := by
  rw [addToBucket_fst]
  by_cases hc : (bs.map Prod.fst).contains k = true
  · rw [if_pos hc]
    exact h
  · rw [if_neg hc]
    have hk : k ∉ bs.map Prod.fst := by
      intro hmem
      exact hc (List.elem_eq_true_of_mem hmem)
    simp [List.nodup_append, h, hk]

theorem foldl_bstep_keys_nodup (items : List Message)
    (bs : List (BucketKind × List Message)) (h : (bs.map Prod.fst).Nodup) :
    (((items.foldl bstep bs)).map Prod.fst).Nodup := by
  induction items generalizing bs with
  | nil => simpa
  | cons m rest ih =>
    rw [List.foldl_cons]
    apply ih
    unfold bstep
    split
    · exact addToBucket_keys_nodup _ _ _ h
    · exact h

theorem bucketsOf_keys_nodup (items : List Message) :
    ((bucketsOf items).map Prod.fst).Nodup :=
  foldl_bstep_keys_nodup items [] (by simp)

theorem bucketGet_of_mem (bs : List (BucketKind × List Message))
    (kb : BucketKind × List Message) (hnd : (bs.map Prod.fst).Nodup)
    (hmem : kb ∈ bs) : bucketGet bs kb.1 = kb.2 := by
  induction bs with
  | nil => cases hmem
  | cons hd rest ih =>
    obtain ⟨k0, ms⟩ := hd
    rcases List.mem_cons.mp hmem with heq | htail
    · subst heq
      simp [bucketGet, List.find?]
    · rw [List.map_cons] at hnd
      have hnd' := List.nodup_cons.mp hnd
      have hk0 : k0 ≠ kb.1 := by
        intro h
        apply hnd'.1
        rw [h]
        have hmm : Prod.fst kb ∈ List.map Prod.fst rest :=
          List.mem_map_of_mem Prod.fst htail
        exact hmm
      have hbeq : (k0 == kb.1) = false := by
        simp [hk0]
      simp only [bucketGet, List.find?, hbeq]
      exact ih hnd'.2 htail

theorem bucketsOf_mem_eq_filter (items : List Message)
    (kb : BucketKind × List Message) (h : kb ∈ bucketsOf items) :
    kb.2 = items.filter (fun m => m.media.isSome && (bucket_kind m == kb.1)) := by
  rw [← bucketsOf_get items kb.1]
  exact (bucketGet_of_mem _ kb (bucketsOf_keys_nodup items) h).symm

theorem foldl_bstep_keys_sound (items : List Message)
    (bs : List (BucketKind × List Message)) (k : BucketKind)
    (h : k ∈ (items.foldl bstep bs).map Prod.fst) :
    k ∈ bs.map Prod.fst ∨ ∃ m ∈ items, m.media.isSome = true ∧ bucket_kind m = k := by
  induction items generalizing bs with
  | nil => exact Or.inl (by simpa using h)
  | cons m rest ih =>
    rw [List.foldl_cons] at h
    rcases ih (bstep bs m) h with hbs | ⟨m', hm', hmed, hkind⟩
    · unfold bstep at hbs
      by_cases hm : m.media.isSome = true
      · rw [if_pos hm, addToBucket_fst] at hbs
        by_cases hc : (bs.map Prod.fst).contains (bucket_kind m) = true
        · rw [if_pos hc] at hbs
          exact Or.inl hbs
        · rw [if_neg hc] at hbs
          rcases List.mem_append.mp hbs with hin | hsing
          · exact Or.inl hin
          · refine Or.inr ⟨m, List.mem_cons_self m rest, hm, ?_⟩
            have : k = bucket_kind m := by simpa using hsing
            exact this.symm
      · rw [if_neg hm] at hbs
        exact Or.inl hbs
    · exact Or.inr ⟨m', List.mem_cons_of_mem m hm', hmed, hkind⟩

theorem bucketsOf_keys_sound (items : List Message) (k : BucketKind)
    (h : k ∈ (bucketsOf items).map Prod.fst) :
    ∃ m ∈ items, m.media.isSome = true ∧ bucket_kind m = k := by
  rcases foldl_bstep_keys_sound items [] k h with hnil | hex
  · simp at hnil
  · exact hex

theorem bucketsOf_ne_nil (items : List Message)
    (kb : BucketKind × List Message) (h : kb ∈ bucketsOf items) :
    kb.2 ≠ [] := by
  have hk : kb.1 ∈ (bucketsOf items).map Prod.fst := List.mem_map_of_mem Prod.fst h
  obtain ⟨m, hm, hmedia, hkind⟩ := bucketsOf_keys_sound items kb.1 hk
  rw [bucketsOf_mem_eq_filter items kb h]
  intro hemp
  have hmem2 : m ∈ items.filter (fun m => m.media.isSome && (bucket_kind m == kb.1)) :=
    List.mem_filter.mpr ⟨hm, by simp [hmedia, hkind]⟩
  rw [hemp] at hmem2
  cases hmem2

theorem foldl_bstep_fst (items : List Message)
    (bs : List (BucketKind × List Message)) :
    (items.foldl bstep bs).map Prod.fst
      = items.foldl
          (fun ks m =>
            if m.media.isSome then
              if ks.contains (bucket_kind m) then ks else ks ++ [bucket_kind m]
            else ks)
          (bs.map Prod.fst) := by
  induction items generalizing bs with
  | nil => simp
  | cons m rest ih =>
    rw [List.foldl_cons, List.foldl_cons, ih]
    congr 1
    unfold bstep
    by_cases hm : m.media.isSome = true
    · rw [if_pos hm, if_pos hm, addToBucket_fst]
    · rw [if_neg hm, if_neg hm]

theorem bucketsOf_fst_firstSeen (items : List Message) :
    (bucketsOf items).map Prod.fst = firstSeenKinds items := by
  unfold bucketsOf firstSeenKinds
  rw [foldl_bstep_fst items []]
  rfl

theorem chunk10_flatten {α : Type} (l : List α) : (chunk10 l).flatten = l := by
  generalize hn : l.length = n
  induction n using Nat.strong_induction_on generalizing l with
  | _ n ih =>
    match l with
    | [] => simp [chunk10]
    | x :: xs =>
      rw [chunk10]
      simp only [List.flatten_cons]
      rw [ih (xs.drop 9).length (by rw [← hn]; simp [List.length_drop]; omega) (xs.drop 9) rfl]
      have h9 : xs.drop 9 = (x :: xs).drop 10 := rfl
      rw [h9]
      exact List.take_append_drop 10 (x :: xs)

theorem chunk10_mem {α : Type} (l : List α) (c : List α) (h : c ∈ chunk10 l) :
    c ≠ [] ∧ c.length ≤ 10 := by
  generalize hn : l.length = n
  induction n using Nat.strong_induction_on generalizing l c with
  | _ n ih =>
    match l with
    | [] =>
      simp [chunk10] at h
    | x :: xs =>
      rw [chunk10] at h
      rcases List.mem_cons.mp h with heq | htail
      · subst heq
        constructor
        · simp [List.take_succ_cons]
        · simp
      · exact ih (xs.drop 9).length (by rw [← hn]; simp [List.length_drop]; omega)
          (xs.drop 9) c htail rfl

theorem chunk10_ne_nil {α : Type} (l : List α) (h : l ≠ []) : chunk10 l ≠ [] := by
  match l with
  | [] => exact absurd rfl h
  | x :: xs =>
    rw [chunk10]
    simp

theorem chunk_ops_mem (dest : Int) (caption : Option String) (files : List Nat)
    (op : SendOp) (h : op ∈ chunk_ops dest caption files) :
    ∃ c ∈ chunk10 files, ∃ cc, op = SendOp.sendFile dest c cc ∧
      (cc = caption ∨ cc = none) := by
  unfold chunk_ops at h
  cases hc : chunk10 files with
  | nil =>
    rw [hc] at h
    cases h
  | cons c cs =>
    rw [hc] at h
    rcases List.mem_cons.mp h with heq | htail
    · exact ⟨c, List.mem_cons_self c cs, caption, heq, Or.inl rfl⟩
    · obtain ⟨c2, hc2, heq2⟩ := List.mem_map.mp htail
      exact ⟨c2, List.mem_cons_of_mem c hc2, none, heq2.symm, Or.inr rfl⟩

theorem send_album_copy_shape (dest : Int) (items : List Message)
    (caption : Option String) (op : SendOp)
    (h : op ∈ send_album_copy dest items caption) :
    ∃ kb ∈ bucketsOf items, ∃ fs cc,
      op = SendOp.sendFile dest fs cc ∧ fs ≠ [] ∧ fs.length ≤ 10 ∧
      (cc = caption ∨ cc = none) ∧ fs ⊆ kb.2.filterMap (fun m => m.media) := by
  unfold send_album_copy at h
  obtain ⟨kb, hkb, hop⟩ := List.mem_flatMap.mp h
  obtain ⟨c, hc, cc, heq, hcc⟩ := chunk_ops_mem dest caption _ op hop
  refine ⟨kb, hkb, c, cc, heq, (chunk10_mem _ c hc).1, (chunk10_mem _ c hc).2, hcc, ?_⟩
  intro x hx
  rw [← chunk10_flatten (kb.2.filterMap (fun m => m.media))]
  exact List.mem_flatten.mpr ⟨c, hc, hx⟩

theorem bucketsOf_mem_media (items : List Message)
    (kb : BucketKind × List Message) (h : kb ∈ bucketsOf items) :
    ∀ m ∈ kb.2, m.media.isSome = true ∧ bucket_kind m = kb.1 := by
  intro m hm
  rw [bucketsOf_mem_eq_filter items kb h] at hm
  have hmf := List.mem_filter.mp hm
  have hand := Bool.and_eq_true_iff.mp hmf.2
  exact ⟨hand.1, eq_of_beq hand.2⟩

theorem filterMap_media_ne_nil (ms : List Message) (hne : ms ≠ [])
    (hall : ∀ m ∈ ms, m.media.isSome = true) :
    ms.filterMap (fun m => m.media) ≠ [] := by
  match ms with
  | [] => exact absurd rfl hne
  | m :: rest =>
    have hmed := hall m (List.mem_cons_self m rest)
    obtain ⟨a, ha⟩ := Option.isSome_iff_exists.mp hmed
    simp [List.filterMap_cons, ha]

theorem chunk_ops_countP_some (dest : Int) (s : String) (files : List Nat)
    (h : files ≠ []) :
    List.countP isCaptioned (chunk_ops dest (some s) files) = 1 := by
  unfold chunk_ops
  cases hc : chunk10 files with
  | nil => exact absurd hc (chunk10_ne_nil files h)
  | cons c cs =>
    rw [List.countP_cons]
    have h0 : List.countP isCaptioned
        (cs.map (fun c2 => SendOp.sendFile dest c2 none)) = 0 := by
      rw [List.countP_eq_zero]
      intro op hop
      obtain ⟨c2, _, heq⟩ := List.mem_map.mp hop
      rw [← heq]
      simp [isCaptioned]
    rw [h0]
    simp [isCaptioned]

theorem countP_flatMap_ones {α : Type} (p : SendOp → Bool) (f : α → List SendOp)
    (bs : List α) (h : ∀ kb ∈ bs, List.countP p (f kb) = 1) :
    List.countP p (bs.flatMap f) = bs.length := by
  induction bs with
  | nil => rfl
  | cons a rest ih =>
    rw [List.flatMap_cons, List.countP_append, h a (List.mem_cons_self a rest),
      ih (fun kb hkb => h kb (List.mem_cons_of_mem a hkb))]
    simp [Nat.add_comm]

theorem send_album_copy_caption_count (dest : Int) (items : List Message)
    (s : String) :
    List.countP isCaptioned (send_album_copy dest items (some s))
      = (bucketsOf items).length := by
  unfold send_album_copy
  apply countP_flatMap_ones
  intro kb hkb
  apply chunk_ops_countP_some
  exact filterMap_media_ne_nil kb.2 (bucketsOf_ne_nil items kb hkb)
    (fun m hm => (bucketsOf_mem_media items kb hkb m hm).1)

theorem album_fallback_run_fst (dest : Int) (caption : Option String)
    (itemOk : Nat → Bool) (items : List Message) (idx : Nat) :
    (album_fallback_run dest caption itemOk items idx).map Prod.fst
      = (items.enumFrom idx).map
          (fun p => SendOp.sendFileSingle dest p.2.media
            (if p.1 == 0 then caption else none)) := by
  induction items generalizing idx with
  | nil => rfl
  | cons m rest ih =>
    simp only [album_fallback_run, List.map_cons, List.enumFrom_cons]
    rw [ih (idx + 1)]

theorem album_caption_spec (items : List Message) (c : String)
    (h : album_caption items = some c) :
    ∃ k, ∃ hk : k < items.length, (items.get ⟨k, hk⟩).text = c ∧ c ≠ "" ∧
      ∀ j (hj : j < k), (items.get ⟨j, Nat.lt_trans hj hk⟩).text = "" := by
  induction items with
  | nil => simp [album_caption] at h
  | cons m rest ih =>
    unfold album_caption at h
    by_cases hm : (m.text != "") = true
    · rw [List.find?_cons] at h
      simp only [hm] at h
      simp only [Option.map] at h
      have htext : m.text = c := by
        simpa using h
      refine ⟨0, by simp, by simpa using htext, ?_, ?_⟩
      · rw [← htext]
        simpa using hm
      · intro j hj
        exact absurd hj (Nat.not_lt_zero j)
    · have hm' : (m.text != "") = false := by
        cases hv : (m.text != "")
        · rfl
        · exact absurd hv hm
      rw [List.find?_cons] at h
      simp only [hm'] at h
      obtain ⟨k, hk, h1, h2, h3⟩ := ih (by simpa [album_caption] using h)
      refine ⟨k + 1, by simpa using hk, by simpa using h1, h2, ?_⟩
      intro j hj
      match j with
      | 0 =>
        simpa using hm'
      | j' + 1 =>
        have hj' : j' < k := Nat.lt_of_succ_lt_succ hj
        simpa using h3 j' hj'

theorem chunk10_nil {α : Type} : chunk10 ([] : List α) = [] := by
  rw [chunk10]

theorem chunk10_cons {α : Type} (x : α) (xs : List α) :
    chunk10 (x :: xs) = (x :: xs).take 10 :: chunk10 (xs.drop 9) := by
  rw [chunk10]

theorem handle_album_dest_ok (dest : Int) (items : List Message)
    (caption : Option String) (cm fm : Bool) (batchOk : Bool)
    (itemOk : Nat → Bool) :
    handle_album_dest dest items caption cm fm batchOk itemOk
      = Except.ok
          ⟨(if fm && !cm then [SendOp.forwardAlbum dest]
              else send_album_copy dest items caption),
            batchOk,
            if batchOk then [] else album_fallback_run dest caption itemOk items 0⟩ := by
  unfold handle_album_dest
  cases batchOk
  · simp
  · simp

theorem filterMap_media_length (ms : List Message)
    (hall : ∀ m ∈ ms, m.media.isSome = true) :
    (ms.filterMap (fun m => m.media)).length = ms.length := by
  induction ms with
  | nil => rfl
  | cons m rest ih =>
    have hmed := hall m (List.mem_cons_self m rest)
    obtain ⟨a, ha⟩ := Option.isSome_iff_exists.mp hmed
    simp [List.filterMap_cons, ha,
      ih (fun m' hm' => hall m' (List.mem_cons_of_mem m hm'))]

theorem album_fallback_run_covers (dest : Int) (caption : Option String)
    (itemOk : Nat → Bool) (items : List Message) (idx : Nat) (m : Message)
    (hm : m ∈ items) :
    ∃ cc, SendOp.sendFileSingle dest m.media cc
        ∈ (album_fallback_run dest caption itemOk items idx).map Prod.fst := by
  induction items generalizing idx with
  | nil => cases hm
  | cons m' rest ih =>
    rcases List.mem_cons.mp hm with heq | htail
    · subst heq
      refine ⟨if idx == 0 then caption else none, ?_⟩
      simp [album_fallback_run]
    · obtain ⟨cc, hcc⟩ := ih (idx + 1) htail
      refine ⟨cc, ?_⟩
      simp only [album_fallback_run, List.map_cons]
      exact List.mem_cons_of_mem _ hcc

/-! ## Claim theorems -/

/-- Claim C6: a single-message event whose message carries a non-empty
(truthy) group identifier is suppressed unconditionally by the
standalone-event path: `on_new_message` attempts no delivery for it. -/
theorem C6_group_suppressed (from_to : List (Int × List Int)) (cm fm : Bool)
    (msg : Message) (h : truthyGroupId msg.groupedId = true) :
    on_new_message from_to cm fm msg = [] := by
  unfold on_new_message
  rw [if_pos h]

/-- Witness for C6 at a concrete grouped message. -/
theorem C6_witness :
    on_new_message [(10, [20])] true false ⟨1, 10, "x", none, false, none, some 7⟩
      = [] :=
  C6_group_suppressed [(10, [20])] true false
    ⟨1, 10, "x", none, false, none, some 7⟩ (by decide)

/-- Claim C7: when the batch delivery (or album forward) to a destination
fails, the handler returns normally (never raises) and its fallback attempts
exactly one individual send per group item, in group order, with the group
caption only on the first item; the attempted sequence does not depend on
which individual items fail. -/
theorem C7_fallback_complete (dest : Int) (items : List Message)
    (caption : Option String) (cm fm : Bool) (itemOk : Nat → Bool) :
    ∃ o, handle_album_dest dest items caption cm fm false itemOk = Except.ok o ∧
      o.fallback.map Prod.fst
        = items.enum.map
            (fun p => SendOp.sendFileSingle dest p.2.media
              (if p.1 == 0 then caption else none)) := by
  refine ⟨_, handle_album_dest_ok dest items caption cm fm false itemOk, ?_⟩
  simp only [if_neg (by simp : ¬(false = true))]
  rw [album_fallback_run_fst]
  rfl

/-- Claim C8 counterexample: a configuration without the `from_to` mapping
loads successfully with an empty mapping; no error is raised. -/
theorem C8_counterexample :
    load_config true ⟨none, none, none⟩ = Except.ok ⟨true, false, []⟩ := by
  rfl

/-- Claim C8 (amended): a missing source-to-destinations mapping is not a
startup error: loading succeeds and yields an empty mapping; the only failure
of the config loader is a missing config file. -/
theorem C8_amended_missing_mapping_ok (d : ConfigData) :
    (load_config true d).isOk = true ∧
    load_config false d = Except.error ConfigError.fileNotFound ∧
    (d.from_to = none →
      load_config true d
        = Except.ok ⟨d.copy.getD true, d.forward.getD false, []⟩) := by
  refine ⟨rfl, rfl, ?_⟩
  intro h
  simp [load_config, h]

/-- Witness for C8 (amended) at a concrete configuration record. -/
theorem C8_witness :
    (load_config true ⟨some true, some true, none⟩).isOk = true ∧
    load_config false ⟨some true, some true, none⟩
      = Except.error ConfigError.fileNotFound ∧
    load_config true ⟨some true, some true, none⟩
      = Except.ok ⟨true, true, []⟩ := by
  have h := C8_amended_missing_mapping_ok ⟨some true, some true, none⟩
  exact ⟨h.1, h.2.1, h.2.2 rfl⟩

/-- Claim C10: chat resolution strips leading and trailing whitespace first,
so resolving any identifier equals resolving its stripped form; a numeric
identifier surrounded by spaces is parsed directly without external lookup. -/
theorem C10_resolve_strips :
    (∀ s, resolve_chat_id s = resolve_chat_id (pyStrip s)) ∧
    resolve_chat_id " -100123 " = Resolved.direct (-100123) := by
  constructor
  · intro s
    unfold resolve_chat_id
    rw [pyStrip_idem]
  · decide

/-- Claim C1 counterexample: with both copy and forward enabled, a standalone
message is delivered by a native forward, not by a copy re-upload. -/
theorem C1_counterexample :
    on_new_message [(10, [20])] true true ⟨1, 10, "hola", none, false, none, none⟩
      = [SendOp.forwardMessages 20 1 10] := by
  rfl

/-- Claim C1 (amended): with both copy and forward enabled, copy takes
precedence only in the group path (the album primary attempt consists of
batch-upload sends); in the standalone path the flag `copy_mode and not
forward_mode` is false, so every attempted delivery is a native forward. -/
theorem C1_amended_copy_precedence_group_only
    (from_to : List (Int × List Int)) (msg : Message) (dest : Int)
    (items : List Message) (caption : Option String) (batchOk : Bool)
    (itemOk : Nat → Bool) :
    (∀ op ∈ on_new_message from_to true true msg,
      ∃ d mid ch, op = SendOp.forwardMessages d mid ch) ∧
    (∀ o, handle_album_dest dest items caption true true batchOk itemOk
        = Except.ok o →
      ∀ op ∈ o.primary, ∃ fs cc, op = SendOp.sendFile dest fs cc) := by
  constructor
  · intro op hop
    unfold on_new_message at hop
    split at hop
    · cases hop
    · obtain ⟨d, _, heq⟩ := List.mem_map.mp hop
      refine ⟨d, msg.id, msg.chatId, ?_⟩
      rw [← heq]
      rfl
  · intro o ho op hop
    have hpr : o.primary = send_album_copy dest items caption := by
      rw [handle_album_dest_ok] at ho
      injection ho with ho2
      rw [← ho2]
      rfl
    rw [hpr] at hop
    obtain ⟨kb, hkb, fs, cc, heq, _, _, _, _⟩ :=
      send_album_copy_shape dest items caption op hop
    exact ⟨fs, cc, heq⟩

/-- Witness for C1 (amended): concrete forward op in the standalone path and
concrete copy op in the group path. -/
theorem C1_witness :
    (∃ d mid ch, SendOp.forwardMessages 20 1 10 = SendOp.forwardMessages d mid ch) ∧
    (∃ fs cc, SendOp.sendFile 20 [100] (some "hi") = SendOp.sendFile 20 fs cc) := by
  have h := C1_amended_copy_precedence_group_only [(10, [20])]
    ⟨1, 10, "hola", none, false, none, none⟩ 20
    [⟨2, 10, "hi", some 100, true, none, some 7⟩] (some "hi") true (fun _ => true)
  constructor
  · exact h.1 (SendOp.forwardMessages 20 1 10) (by rw [C1_counterexample]; exact List.mem_cons_self _ _)
  · refine h.2 _ (handle_album_dest_ok 20 _ (some "hi") true true true (fun _ => true))
      (SendOp.sendFile 20 [100] (some "hi")) ?_
    simp [send_album_copy, bucketsOf, bstep, addToBucket, bucket_kind, chunk_ops,
      chunk10_cons, chunk10_nil]

/-- Claim C2 counterexample: with neither copy nor forward enabled, a
standalone message is still delivered, by a native forward. -/
theorem C2_counterexample :
    on_new_message [(10, [20])] false false ⟨1, 10, "hola", none, false, none, none⟩
      = [SendOp.forwardMessages 20 1 10] := by
  rfl

/-- Claim C2 (amended): disabling both modes does not make the configuration
inert: the standalone path still attempts a native forward per destination
(and attempts at least one delivery when the source has destinations), and
the group path still performs the batched copy as its primary attempt. -/
theorem C2_amended_never_inert
    (from_to : List (Int × List Int)) (msg : Message) (dest : Int)
    (items : List Message) (caption : Option String) (batchOk : Bool)
    (itemOk : Nat → Bool) :
    (∀ op ∈ on_new_message from_to false false msg,
      ∃ d mid ch, op = SendOp.forwardMessages d mid ch) ∧
    (truthyGroupId msg.groupedId = false →
      lookupDests from_to msg.chatId ≠ [] →
      on_new_message from_to false false msg ≠ []) ∧
    (∀ o, handle_album_dest dest items caption false false batchOk itemOk
        = Except.ok o →
      o.primary = send_album_copy dest items caption) := by
  refine ⟨?_, ?_, ?_⟩
  · intro op hop
    unfold on_new_message at hop
    split at hop
    · cases hop
    · obtain ⟨d, _, heq⟩ := List.mem_map.mp hop
      refine ⟨d, msg.id, msg.chatId, ?_⟩
      rw [← heq]
      rfl
  · intro hg hd
    simp only [on_new_message, hg, Bool.false_eq_true, if_false]
    intro hemp
    exact hd (by simpa using hemp)
  · intro o ho
    rw [handle_album_dest_ok] at ho
    injection ho with ho2
    rw [← ho2]
    rfl

/-- Witness for C2 (amended): concrete instantiation of all three parts. -/
theorem C2_witness :
    (∃ d mid ch, SendOp.forwardMessages 20 1 10 = SendOp.forwardMessages d mid ch) ∧
    on_new_message [(10, [20])] false false ⟨1, 10, "hola", none, false, none, none⟩ ≠ [] ∧
    (⟨send_album_copy 20 [] none, true, []⟩ : DestOutcome).primary
      = send_album_copy 20 [] none := by
  have h := C2_amended_never_inert [(10, [20])]
    ⟨1, 10, "hola", none, false, none, none⟩ 20 [] none true (fun _ => true)
  refine ⟨?_, ?_, ?_⟩
  · exact h.1 (SendOp.forwardMessages 20 1 10)
      (by rw [C2_counterexample]; exact List.mem_cons_self _ _)
  · exact h.2.1 (by decide) (by decide)
  · exact h.2.2 ⟨send_album_copy 20 [] none, true, []⟩
      (handle_album_dest_ok 20 [] none false false true (fun _ => true))

/-- Claim C3 counterexample: a two-class group (one photo, one document) with
caption "hi" produces two batches and BOTH carry the caption — the first
chunk of every bucket gets it, not only the first bucket. -/
theorem C3_counterexample :
    send_album_copy 20
        [⟨2, 10, "hi", some 100, true, none, some 7⟩,
          ⟨3, 10, "", some 101, false, some "application/pdf", some 7⟩]
        (album_caption
          [⟨2, 10, "hi", some 100, true, none, some 7⟩,
            ⟨3, 10, "", some 101, false, some "application/pdf", some 7⟩])
      = [SendOp.sendFile 20 [100] (some "hi"),
          SendOp.sendFile 20 [101] (some "hi")] ∧
    List.countP isCaptioned
        (send_album_copy 20
          [⟨2, 10, "hi", some 100, true, none, some 7⟩,
            ⟨3, 10, "", some 101, false, some "application/pdf", some 7⟩]
          (album_caption
            [⟨2, 10, "hi", some 100, true, none, some 7⟩,
              ⟨3, 10, "", some 101, false, some "application/pdf", some 7⟩]))
      = 2 := by
  constructor
  · simp [send_album_copy, bucketsOf, bstep, addToBucket, bucket_kind, pyStartsWith,
      chunk_ops, chunk10_cons, chunk10_nil, album_caption, List.find?]
  · simp [send_album_copy, bucketsOf, bstep, addToBucket, bucket_kind, pyStartsWith,
      chunk_ops, chunk10_cons, chunk10_nil, album_caption, List.find?, isCaptioned,
      List.countP_cons]

/-- Claim C3 (amended): in copy mode with caption `s`, the number of
caption-bearing batches equals the number of type buckets (the first chunk of
EVERY bucket carries the caption, all other chunks carry none), the very
first batch sent does carry the caption, and the group caption is the first
non-empty message text in original order. -/
theorem C3_amended_caption_per_bucket (dest : Int) (items : List Message)
    (s : String) :
    List.countP isCaptioned (send_album_copy dest items (some s))
        = (bucketsOf items).length ∧
    (∀ op ∈ send_album_copy dest items (some s),
      ∃ fs cc, op = SendOp.sendFile dest fs cc ∧ (cc = some s ∨ cc = none)) ∧
    (∀ c, album_caption items = some c →
      ∃ k, ∃ hk : k < items.length, (items.get ⟨k, hk⟩).text = c ∧ c ≠ "" ∧
        ∀ j (hj : j < k), (items.get ⟨j, Nat.lt_trans hj hk⟩).text = "") ∧
    (bucketsOf items ≠ [] →
      ∃ fs, (send_album_copy dest items (some s)).head?
        = some (SendOp.sendFile dest fs (some s))) := by
  refine ⟨send_album_copy_caption_count dest items s, ?_, ?_, ?_⟩
  · intro op hop
    obtain ⟨kb, hkb, fs, cc, heq, _, _, hcc, _⟩ :=
      send_album_copy_shape dest items (some s) op hop
    exact ⟨fs, cc, heq, hcc⟩
  · intro c hc
    exact album_caption_spec items c hc
  · intro hne
    cases hb : bucketsOf items with
    | nil => exact absurd hb hne
    | cons kb rest =>
      have hmem : kb ∈ bucketsOf items := by
        rw [hb]
        exact List.mem_cons_self kb rest
      have hfne : kb.2.filterMap (fun m => m.media) ≠ [] :=
        filterMap_media_ne_nil kb.2 (bucketsOf_ne_nil items kb hmem)
          (fun m hm => (bucketsOf_mem_media items kb hmem m hm).1)
      cases hc : chunk10 (kb.2.filterMap (fun m => m.media)) with
      | nil => exact absurd hc (chunk10_ne_nil _ hfne)
      | cons c cs =>
        refine ⟨c, ?_⟩
        unfold send_album_copy
        rw [hb, List.flatMap_cons]
        unfold chunk_ops
        rw [hc]
        rfl

/-- Witness for C3 (amended) on a concrete two-class group. -/
theorem C3_witness :
    List.countP isCaptioned
        (send_album_copy 20
          [⟨2, 10, "", some 100, true, none, some 7⟩,
            ⟨3, 10, "", some 101, false, some "application/pdf", some 7⟩]
          (some "hey"))
      = (bucketsOf
          [⟨2, 10, "", some 100, true, none, some 7⟩,
            ⟨3, 10, "", some 101, false, some "application/pdf", some 7⟩]).length ∧
    (∃ fs, (send_album_copy 20
          [⟨2, 10, "", some 100, true, none, some 7⟩,
            ⟨3, 10, "", some 101, false, some "application/pdf", some 7⟩]
          (some "hey")).head?
        = some (SendOp.sendFile 20 fs (some "hey"))) := by
  have h := C3_amended_caption_per_bucket 20
    [⟨2, 10, "", some 100, true, none, some 7⟩,
      ⟨3, 10, "", some 101, false, some "application/pdf", some 7⟩] "hey"
  refine ⟨h.1, h.2.2.2 ?_⟩
  simp [bucketsOf, bstep, addToBucket, bucket_kind, pyStartsWith]

/-- Claim C4: every batch produced in copy mode is a `send_file` call with
between 1 and 10 payloads, and per bucket the concatenation of its chunks in
send order is exactly the bucket's payload list, which is in one-to-one
correspondence with the bucket's items. -/
theorem C4_batch_bounds (dest : Int) (items : List Message)
    (caption : Option String) :
    (∀ op ∈ send_album_copy dest items caption,
      ∃ fs cc, op = SendOp.sendFile dest fs cc ∧ 1 ≤ fs.length ∧
        fs.length ≤ 10) ∧
    (∀ kb ∈ bucketsOf items,
      (chunk10 (kb.2.filterMap (fun m => m.media))).flatten
          = kb.2.filterMap (fun m => m.media) ∧
      (kb.2.filterMap (fun m => m.media)).length = kb.2.length) := by
  constructor
  · intro op hop
    obtain ⟨kb, hkb, fs, cc, heq, hne, hle, _, _⟩ :=
      send_album_copy_shape dest items caption op hop
    refine ⟨fs, cc, heq, ?_, hle⟩
    have hpos : 0 < fs.length := List.length_pos.mpr hne
    omega
  · intro kb hkb
    refine ⟨chunk10_flatten _, ?_⟩
    exact filterMap_media_length kb.2
      (fun m hm => (bucketsOf_mem_media items kb hkb m hm).1)

/-- Witness for C4 on a concrete group of one photo. -/
theorem C4_witness :
    (∃ fs cc, SendOp.sendFile 20 [100] (some "hi") = SendOp.sendFile 20 fs cc ∧
      1 ≤ fs.length ∧ fs.length ≤ 10) ∧
    ((chunk10 (([⟨2, 10, "hi", some 100, true, none, some 7⟩] :
          List Message).filterMap (fun m => m.media))).flatten
        = ([⟨2, 10, "hi", some 100, true, none, some 7⟩] :
          List Message).filterMap (fun m => m.media)) := by
  have h := C4_batch_bounds 20 [⟨2, 10, "hi", some 100, true, none, some 7⟩]
    (some "hi")
  constructor
  · refine h.1 (SendOp.sendFile 20 [100] (some "hi")) ?_
    simp [send_album_copy, bucketsOf, bstep, addToBucket, bucket_kind, pyStartsWith,
      chunk_ops, chunk10_cons, chunk10_nil]
  · refine (h.2 (BucketKind.photo, [⟨2, 10, "hi", some 100, true, none, some 7⟩]) ?_).1
    simp [bucketsOf, bstep, addToBucket, bucket_kind, pyStartsWith]

/-- Claim C5: buckets isolate media classes — every item of a bucket has the
bucket's class (photo if a photo attachment is present, else video if the
document content-type starts with "video/", else document), each bucket is
exactly the in-order sublist of the group's media items of its class, bucket
classes appear in first-seen order, and every produced batch draws its
payloads from a single bucket. -/
theorem C5_type_isolation (items : List Message) :
    (∀ kb ∈ bucketsOf items, ∀ m ∈ kb.2,
      bucket_kind m = kb.1 ∧ m.media.isSome = true) ∧
    (∀ kb ∈ bucketsOf items,
      kb.2 = items.filter (fun m => m.media.isSome && (bucket_kind m == kb.1))) ∧
    (bucketsOf items).map Prod.fst = firstSeenKinds items ∧
    (∀ dest caption op, op ∈ send_album_copy dest items caption →
      ∃ kb ∈ bucketsOf items, ∃ fs cc, op = SendOp.sendFile dest fs cc ∧
        fs ⊆ kb.2.filterMap (fun m => m.media)) := by
  refine ⟨?_, ?_, bucketsOf_fst_firstSeen items, ?_⟩
  · intro kb hkb m hm
    have h := bucketsOf_mem_media items kb hkb m hm
    exact ⟨h.2, h.1⟩
  · intro kb hkb
    exact bucketsOf_mem_eq_filter items kb hkb
  · intro dest caption op hop
    obtain ⟨kb, hkb, fs, cc, heq, _, _, _, hsub⟩ :=
      send_album_copy_shape dest items caption op hop
    exact ⟨kb, hkb, fs, cc, heq, hsub⟩

/-- Witness for C5 on a concrete mixed group. -/
theorem C5_witness :
    (bucket_kind ⟨2, 10, "", some 100, true, none, some 7⟩ = BucketKind.photo ∧
      (⟨2, 10, "", some 100, true, none, some 7⟩ : Message).media.isSome = true) ∧
    (bucketsOf [⟨2, 10, "", some 100, true, none, some 7⟩]).map Prod.fst
      = firstSeenKinds [⟨2, 10, "", some 100, true, none, some 7⟩] := by
  have h := C5_type_isolation [⟨2, 10, "", some 100, true, none, some 7⟩]
  refine ⟨?_, h.2.2.1⟩
  refine h.1 (BucketKind.photo, [⟨2, 10, "", some 100, true, none, some 7⟩]) ?_
    ⟨2, 10, "", some 100, true, none, some 7⟩ ?_
  · simp [bucketsOf, bstep, addToBucket, bucket_kind, pyStartsWith]
  · exact List.mem_cons_self _ _

/-- Claim C9 counterexample: in a group with a photo and a text-only item,
after a failed batch the per-item fallback DOES attempt an individual send
for the text-only item (with an empty media payload), contrary to the claim
that it is never sent as its own item. -/
theorem C9_counterexample :
    handle_album_dest 20
        [⟨2, 10, "", some 100, true, none, some 7⟩,
          ⟨4, 10, "hola", none, false, none, some 7⟩]
        (album_caption
          [⟨2, 10, "", some 100, true, none, some 7⟩,
            ⟨4, 10, "hola", none, false, none, some 7⟩])
        true false false (fun _ => true)
      = Except.ok
          ⟨[SendOp.sendFile 20 [100] (some "hola")], false,
            [(SendOp.sendFileSingle 20 (some 100) (some "hola"), true),
              (SendOp.sendFileSingle 20 none none, true)]⟩ := by
  rw [handle_album_dest_ok]
  simp [send_album_copy, bucketsOf, bstep, addToBucket, bucket_kind, pyStartsWith,
    chunk_ops, chunk10_cons, chunk10_nil, album_caption, List.find?,
    album_fallback_run]

/-- Claim C9 (amended): an item with text but no media never enters any type
bucket (so the batch-partition path never delivers it), but the per-item
fallback does attempt an individual send for it, with an empty media
payload. -/
theorem C9_amended_text_only_items (items : List Message) :
    (∀ kb ∈ bucketsOf items, ∀ m ∈ kb.2, m.media.isSome = true) ∧
    (∀ (dest : Int) (caption : Option String) (cm fm : Bool)
        (itemOk : Nat → Bool) (m : Message), m ∈ items → m.media = none →
      ∃ o, handle_album_dest dest items caption cm fm false itemOk
          = Except.ok o ∧
        ∃ cc, SendOp.sendFileSingle dest none cc ∈ o.fallback.map Prod.fst) := by
  constructor
  · intro kb hkb m hm
    exact (bucketsOf_mem_media items kb hkb m hm).1
  · intro dest caption cm fm itemOk m hm hmedia
    refine ⟨_, handle_album_dest_ok dest items caption cm fm false itemOk, ?_⟩
    simp only [if_neg (by simp : ¬(false = true))]
    obtain ⟨cc, hcc⟩ := album_fallback_run_covers dest caption itemOk items 0 m hm
    rw [hmedia] at hcc
    exact ⟨cc, hcc⟩

/-- Witness for C9 (amended) on a concrete group with a text-only item. -/
theorem C9_witness :
    (∀ kb ∈ bucketsOf
        [⟨2, 10, "", some 100, true, none, some 7⟩,
          ⟨4, 10, "hola", none, false, none, some 7⟩],
      ∀ m ∈ kb.2, m.media.isSome = true) ∧
    (∃ o, handle_album_dest 20
        [⟨2, 10, "", some 100, true, none, some 7⟩,
          ⟨4, 10, "hola", none, false, none, some 7⟩]
        none true false false (fun _ => true) = Except.ok o ∧
      ∃ cc, SendOp.sendFileSingle 20 none cc ∈ o.fallback.map Prod.fst) := by
  have h := C9_amended_text_only_items
    [⟨2, 10, "", some 100, true, none, some 7⟩,
      ⟨4, 10, "hola", none, false, none, some 7⟩]
  refine ⟨h.1, ?_⟩
  exact h.2 20 none true false (fun _ => true)
    ⟨4, 10, "hola", none, false, none, some 7⟩
    (List.mem_cons_of_mem _ (List.mem_cons_self _ _)) rfl
